import Mathlib

set_option maxRecDepth 8000

/-!
Verification of the menu/inventory/order subsystem of the hotel room-service
agent (`upswing_hotel_agent.py`).

The two tool functions `check_menu` and `place_order` are shallowly embedded
here.  MongoDB documents become records with optional fields (a missing key in
a document is `none`); the two collections `menu` and `orders` become lists
inside a `State`; `datetime.now()` becomes an explicit `now : Nat` parameter;
a Python exception escaping the function (e.g. a `KeyError` from `item['stock']`
on a document without that key) becomes `Except.error`, paired with the state
reached at the moment of the raise (MongoDB writes issued before the raise
persist).

MongoDB's `$regex` with option `"i"` is modelled by a small PCRE subset:
literal characters, the wildcard `.`, and the anchors `^` (leading) and `$`
(trailing).  A pattern outside this subset fails to parse; its matching is
outside the model, but its *store-boundary* behaviour is partly modelled:
surely-invalid patterns (an unescaped, unterminated `(`) make the find raise
`OperationFailure`, captured by the boundary wrappers `check_menu_run` and
`place_order_run`.  Every general theorem below is stated for patterns inside
the subset (in particular for metacharacter-free patterns, where the subset is
complete), and every concrete evaluation uses patterns inside the subset or a
surely-invalid one.
-/

namespace HotelAgent

/-- The PCRE metacharacters relevant to the `$regex` patterns the source
builds by raw string interpolation. -/
def metachar (c : Char) : Bool :=
  c = '\\' || c = '^' || c = '$' || c = '.' || c = '|' || c = '?' || c = '*' ||
  c = '+' || c = '(' || c = ')' || c = '[' || c = ']' ||
  c = Char.ofNat 123 || c = Char.ofNat 125

/-- A pattern string that contains no regex metacharacter at all; on such a
pattern `$regex` degenerates to (case-insensitive) substring search. -/
def literalPat (p : String) : Bool :=
  p.data.all (fun c => !(metachar c))

/-- A regex atom of the modelled subset: a literal character or the
wildcard `.`. -/
inductive Atom where
  | lit : Char → Atom
  | dot : Atom
deriving DecidableEq, Repr

/-- A metacharacter-free pattern character as an atom. -/
def litAtom (c : Char) : Atom := Atom.lit c

/-- Parse the body of a pattern (after anchors were stripped) into atoms.
Returns `none` on any metacharacter other than `.` (outside the modelled
subset). -/
def parsePieces : List Char → Option (List Atom)
  | [] => some []
  | c :: cs =>
    if metachar c ∧ c ≠ '.' then none
    else (parsePieces cs).map (fun ps => (if c = '.' then Atom.dot else Atom.lit c) :: ps)

/-- A parsed pattern: optional leading `^`, atoms, optional trailing `$`. -/
structure Pat where
  aStart : Bool
  pieces : List Atom
  aEnd : Bool
deriving DecidableEq, Repr

/-- Strip a leading `^` anchor. -/
def stripCaret : List Char → Bool × List Char
  | [] => (false, [])
  | c :: cs => if c = '^' then (true, cs) else (false, c :: cs)

/-- Strip a trailing `$` anchor. -/
def stripDollar (cs : List Char) : Bool × List Char :=
  if cs.getLast? = some '$' then (true, cs.dropLast) else (false, cs)

/-- Parse a whole pattern string. -/
def parsePat (p : String) : Option Pat :=
  (parsePieces (stripDollar (stripCaret p.data).2).2).map
    (fun ps => ⟨(stripCaret p.data).1, ps, (stripDollar (stripCaret p.data).2).1⟩)

/-- Case-insensitive atom match (the `"i"` regex option); PCRE's `.` does not
match a newline. -/
def atomMatches : Atom → Char → Bool
  | Atom.lit c, x => decide (c.toLower = x.toLower)
  | Atom.dot, x => decide (x ≠ '\n')

/-- The atoms match the whole character list. -/
def matchFull : List Atom → List Char → Bool
  | [], [] => true
  | [], _ :: _ => false
  | _ :: _, [] => false
  | a :: ps, x :: xs => atomMatches a x && matchFull ps xs

/-- The atoms match some prefix of the character list. -/
def matchPre : List Atom → List Char → Bool
  | [], _ => true
  | _ :: _, [] => false
  | a :: ps, x :: xs => atomMatches a x && matchPre ps xs

/-- The atoms match starting at some position (unanchored search). -/
def searchFrom (ps : List Atom) : List Char → Bool
  | [] => matchPre ps []
  | x :: xs => matchPre ps (x :: xs) || searchFrom ps xs

/-- The atoms match some whole suffix (pattern anchored only at the end). -/
def suffixFull (ps : List Atom) : List Char → Bool
  | [] => matchFull ps []
  | x :: xs => matchFull ps (x :: xs) || suffixFull ps xs

/-- Run a parsed pattern against a text, respecting anchors. -/
def patMatches (pat : Pat) (text : String) : Bool :=
  match pat.aStart, pat.aEnd with
  | true, true => matchFull pat.pieces text.data
  | true, false => matchPre pat.pieces text.data
  | false, true => suffixFull pat.pieces text.data
  | false, false => searchFrom pat.pieces text.data

/-- MongoDB `{"$regex": p, "$options": "i"}` applied to a string value:
parse the pattern and search.  This function gives the matching semantics of
patterns *inside* the modelled subset only.  For a pattern outside the subset
it returns `false`, but that value is never meaningful on its own: the
store-boundary behaviour of such patterns is modelled one level up, at the
find call — `check_menu_run` and `place_order_run` raise `OperationFailure`
for patterns that are surely invalid PCRE (see `surelyInvalid`), and patterns
that are neither modelled nor surely invalid (alternation, quantifiers,
classes, escapes) are outside the model: no theorem below quantifies over
them — every universal statement about matching carries a `literalPat`
hypothesis, and every concrete input stays inside the subset. -/
def regexSearch (p text : String) : Bool :=
  match parsePat p with
  | some pat => patMatches pat text
  | none => false

/-- A document of the `menu` collection.  `id` models the MongoDB `_id`;
the other fields are optional because a document may lack any of them
(`doc.get(..., default)` in `check_menu` versus `doc[...]` in `place_order`). -/
structure Doc where
  id : Nat
  item : Option String
  price : Option Int
  stock : Option Int
  tags : Option (List String)
deriving DecidableEq, Repr

/-- A document of the `orders` collection, as built by `place_order`. -/
structure Order where
  item : String
  price : Int
  status : String
  timestamp : Nat
deriving DecidableEq, Repr

/-- The two collections the tools touch. -/
structure State where
  menu : List Doc
  orders : List Order
deriving DecidableEq, Repr

/-- The four documents seeded by the script's `insert_many`. -/
def seededMenu : List Doc :=
  [⟨0, some "Club Sandwich", some 15, some 10, some ["contains_gluten", "meat"]⟩,
   ⟨1, some "Vegan Buddha Bowl", some 18, some 5, some ["vegan", "gluten_free", "nuts"]⟩,
   ⟨2, some "Caesar Salad", some 12, some 0, some ["vegetarian", "contains_dairy"]⟩,
   ⟨3, some "Fruit Platter", some 10, some 20, some ["vegan", "gluten_free"]⟩]

/-- The freshly seeded state: four menu documents, no orders. -/
def seededState : State := ⟨seededMenu, []⟩

/-- Python `query.lower()` (ASCII case folding). -/
def lowerStr (s : String) : String := ⟨s.data.map Char.toLower⟩

/-- One document's `$or` test in `check_menu`'s `search_criteria`: the regex
matches the `item` field, or some element of the `tags` array.  A missing
field never matches. -/
def docMatchesQuery (query : String) (d : Doc) : Bool :=
  (match d.item with
   | some nm => regexSearch query nm
   | none => false) ||
  (match d.tags with
   | some ts => ts.any (fun t => regexSearch query t)
   | none => false)

/-- The sentinel `check_menu` returns when no line was produced. -/
def noMatchMsg : String := "No matching items found on the menu."

/-- The line `check_menu` renders for one document, with the `doc.get`
defaults: item `"Unknown"`, price `0`, stock `0`, tags `[]`. -/
def renderDoc (d : Doc) : String :=
  let item := d.item.getD "Unknown"
  let price := d.price.getD 0
  let stock := d.stock.getD 0
  let tags := d.tags.getD []
  let status := if stock > 0 then "Available ($" ++ toString price ++ ")" else "OUT OF STOCK"
  "- " ++ item ++ ": " ++ status ++ " (Tags: " ++ String.intercalate ", " tags ++ ")"

/-- Join the rendered lines, or fall back to the sentinel. -/
def renderResponse (docs : List Doc) : String :=
  let response := docs.map renderDoc
  if response.isEmpty then noMatchMsg else String.intercalate "\n" response

/-- `check_menu(query)`: fetch everything when the query is empty or is the
token `"menu"` after `query.lower()`, else filter by the `$or` criteria; then
render.  The source only reads, so no state is returned. -/
def check_menu (query : String) (s : State) : String :=
  renderResponse
    (if query = "" ∨ lowerStr query = "menu" then s.menu
     else s.menu.filter (docMatchesQuery query))

/-- The `find_one` predicate of `place_order`: the raw-interpolated pattern
`^item_name$` with option `"i"` run against the document's `item` field. -/
def nameSelector (item_name : String) (d : Doc) : Bool :=
  match d.item with
  | some nm => regexSearch ("^" ++ item_name ++ "$") nm
  | none => false

/-- `place_order`'s `find_one`: the first menu document the regex matches. -/
def po_lookup (item_name : String) (s : State) : Option Doc :=
  s.menu.find? (nameSelector item_name)

/-- `update_one({"_id": i}, {"$inc": {"stock": delta}})`: add `delta` to the
`stock` field of the first document whose `_id` is `i` (MongoDB's `$inc`
creates a missing field as if it were `0`). -/
def incStockById (i : Nat) (delta : Int) : List Doc → List Doc
  | [] => []
  | d :: ds =>
    if d.id = i then { d with stock := some (d.stock.getD 0 + delta) } :: ds
    else d :: incStockById i delta ds

/-- The write phase of `place_order`, entered after the stock check passed on
the document `item` read earlier: unconditional `$inc` of `stock` by `-1`,
then the order insert built from `item['item']` and `item['price']` (a
`KeyError` there fires after the decrement already happened). -/
def po_commit (now : Nat) (item : Doc) (s : State) : Except String String × State :=
  let s1 : State := { s with menu := incStockById item.id (-1) s.menu }
  match item.item with
  | none => (Except.error "KeyError: item", s1)
  | some nm =>
    match item.price with
    | none => (Except.error "KeyError: price", s1)
    | some pr =>
      let ord : Order := { item := nm, price := pr, status := "kitchen_preparing", timestamp := now }
      (Except.ok ("SUCCESS: Ordered " ++ nm ++ ". It will arrive in 30 mins."),
       { s1 with orders := s1.orders ++ [ord] })

/-- `place_order(item_name)`: regex lookup, guard clauses, then the write
phase.  `Except.error` models a Python exception escaping the function. -/
def place_order (now : Nat) (item_name : String) (s : State) :
    Except String String × State :=
  match po_lookup item_name s with
  | none =>
    (Except.ok ("Error: '" ++ item_name ++ "' is not on the menu. Please check the menu first."),
     s)
  | some item =>
    match item.stock with
    | none => (Except.error "KeyError: stock", s)
    | some st =>
      if st ≤ 0 then
        match item.item with
        | none => (Except.error "KeyError: item", s)
        | some nm => (Except.ok ("Sorry, " ++ nm ++ " is currently out of stock."), s)
      else po_commit now item s

/-- A pattern that is *surely* invalid PCRE: it contains an opening
parenthesis but no closing one and no backslash, so some group is
unescaped and unterminated and the server-side regex compile fails.  This
is a sound under-approximation of PCRE invalidity, enough to exhibit the
`OperationFailure` path; patterns that are invalid for other reasons are
simply outside the model. -/
def surelyInvalid (p : String) : Bool :=
  decide ('(' ∈ p.data) && !(decide (')' ∈ p.data)) && !(decide ('\\' ∈ p.data))

/-- The `check_menu` tool call at the public boundary.  The source builds a
lazy cursor and iterates it: for the generic branch no regex is executed at
all; otherwise, if the query is an invalid regex, PyMongo raises
`OperationFailure` at the first iteration, before any response line is built
— modelled as `Except.error` for the surely-invalid patterns. -/
def check_menu_run (query : String) (s : State) : Except String String :=
  if query = "" ∨ lowerStr query = "menu" then Except.ok (check_menu query s)
  else if surelyInvalid query = true then Except.error "OperationFailure: invalid regex"
  else Except.ok (check_menu query s)

/-- The `place_order` tool call at the public boundary.  The `find_one` on
the raw-interpolated pattern `^item_name$` executes immediately, so an
invalid regex raises `OperationFailure` before any guard runs or any write
is issued — the state is untouched. -/
def place_order_run (now : Nat) (item_name : String) (s : State) :
    Except String String × State :=
  if surelyInvalid ("^" ++ item_name ++ "$") = true then
    (Except.error "OperationFailure: invalid regex", s)
  else place_order now item_name s

deriving instance DecidableEq for Except

/-! ## Spec-side definitions

The specification describes `placeOrder`'s lookup as an *exact
case-insensitive whole-string match* and `search`'s matching as *exact
case-insensitive substring* semantics.  The following definitions are written
from those words, to be compared with the regex-based definitions embedded
from the source. -/

/-- Spec-side: the document's `item` name equals the requested name up to
ASCII case. -/
def specNameEq (item_name : String) (d : Doc) : Bool :=
  match d.item with
  | some nm => decide (nm.data.map Char.toLower = item_name.data.map Char.toLower)
  | none => false

/-- Spec-side: lookup by exact case-insensitive whole-string name match. -/
def spec_lookup (item_name : String) (s : State) : Option Doc :=
  s.menu.find? (specNameEq item_name)

/-- The first list is a prefix of the second. -/
def prefList : List Char → List Char → Bool
  | [], _ => true
  | _ :: _, [] => false
  | a :: as, b :: bs => decide (a = b) && prefList as bs

/-- The first list occurs as a contiguous sublist of the second. -/
def subList (q : List Char) : List Char → Bool
  | [] => q.isEmpty
  | b :: bs => prefList q (b :: bs) || subList q bs

/-- Spec-side: `q` occurs in `s` as a case-insensitive substring (exact
substring semantics). -/
def specSubstr (q s : String) : Bool :=
  subList (q.data.map Char.toLower) (s.data.map Char.toLower)

/-- Spec-side: the item's name or one of its tags contains the query as a
case-insensitive substring. -/
def specDocMatches (q : String) (d : Doc) : Bool :=
  (match d.item with
   | some nm => specSubstr q nm
   | none => false) ||
  (match d.tags with
   | some ts => ts.any (fun t => specSubstr q t)
   | none => false)

/-! ## Bridge lemmas: on metacharacter-free patterns the source's regex
matching coincides with the spec's exact case-insensitive semantics. -/

theorem parsePieces_literal (l : List Char) (h : ∀ c ∈ l, metachar c = false) :
    parsePieces l = some (l.map Atom.lit) := by
  induction l with
  | nil => rfl
  | cons c cs ih =>
    have hc : metachar c = false := h c (List.mem_cons_self c cs)
    have hdot : c ≠ '.' := by
      intro hEq
      rw [hEq] at hc
      simp [metachar] at hc
    rw [parsePieces]
    rw [ih (fun x hx => h x (List.mem_cons_of_mem c hx))]
    simp [hc, hdot]

theorem matchFull_literal (l xs : List Char) :
    matchFull (l.map Atom.lit) xs =
      decide (l.map Char.toLower = xs.map Char.toLower) := by
  induction l generalizing xs with
  | nil => cases xs <;> simp [matchFull]
  | cons c cs ih =>
    cases xs with
    | nil => simp [matchFull]
    | cons x xs' => simp [matchFull, atomMatches, ih, List.cons.injEq]

theorem matchPre_literal (l xs : List Char) :
    matchPre (l.map Atom.lit) xs =
      prefList (l.map Char.toLower) (xs.map Char.toLower) := by
  induction l generalizing xs with
  | nil => cases xs <;> simp [matchPre, prefList]
  | cons c cs ih =>
    cases xs with
    | nil => simp [matchPre, prefList]
    | cons x xs' => simp [matchPre, atomMatches, ih, prefList]

theorem prefList_nil (q : List Char) : prefList q [] = q.isEmpty := by
  cases q <;> rfl

theorem searchFrom_literal (l xs : List Char) :
    searchFrom (l.map Atom.lit) xs =
      subList (l.map Char.toLower) (xs.map Char.toLower) := by
  induction xs with
  | nil =>
    show matchPre (l.map Atom.lit) [] = subList (l.map Char.toLower) []
    rw [matchPre_literal]
    simp only [List.map_nil]
    rw [prefList_nil]
    cases l <;> rfl
  | cons x xs' ih =>
    show (matchPre (l.map Atom.lit) (x :: xs') || searchFrom (l.map Atom.lit) xs') =
      subList (l.map Char.toLower) ((x :: xs').map Char.toLower)
    rw [matchPre_literal, ih]
    rfl

theorem parsePat_literal (p : String) (h : literalPat p = true) :
    parsePat p = some ⟨false, p.data.map Atom.lit, false⟩ := by
  have hall : ∀ c ∈ p.data, metachar c = false := by
    intro c hc
    have := (List.all_eq_true.mp h) c hc
    simpa using this
  have hcaret : stripCaret p.data = (false, p.data) := by
    cases hd : p.data with
    | nil => rfl
    | cons c cs =>
      have : metachar c = false := hall c (by rw [hd]; exact List.mem_cons_self c cs)
      have hne : c ≠ '^' := by
        intro hEq
        rw [hEq] at this
        simp [metachar] at this
      simp [stripCaret, hne]
  have hdollar : stripDollar p.data = (false, p.data) := by
    unfold stripDollar
    have : ¬ p.data.getLast? = some '$' := by
      intro hl
      have hmem : '$' ∈ p.data := List.mem_of_mem_getLast? hl
      have := hall _ hmem
      simp [metachar] at this
    simp [this]
  unfold parsePat
  rw [hcaret]
  simp only []
  rw [hdollar]
  simp only []
  rw [parsePieces_literal p.data hall]
  rfl

theorem parsePat_anchored (name : String) (h : literalPat name = true) :
    parsePat ("^" ++ name ++ "$") = some ⟨true, name.data.map Atom.lit, true⟩ := by
  have hall : ∀ c ∈ name.data, metachar c = false := by
    intro c hc
    have := (List.all_eq_true.mp h) c hc
    simpa using this
  have hdata : ("^" ++ name ++ "$").data = '^' :: (name.data ++ ['$']) := by
    rw [String.data_append, String.data_append]
    rfl
  unfold parsePat
  rw [hdata]
  have hcaret : stripCaret ('^' :: (name.data ++ ['$'])) = (true, name.data ++ ['$']) := by
    simp [stripCaret]
  rw [hcaret]
  have hdollar : stripDollar (name.data ++ ['$']) = (true, name.data) := by
    unfold stripDollar
    simp
  simp only []
  rw [hdollar]
  simp only []
  rw [parsePieces_literal name.data hall]
  rfl

theorem regexSearch_literal (q text : String) (h : literalPat q = true) :
    regexSearch q text = specSubstr q text := by
  unfold regexSearch
  rw [parsePat_literal q h]
  show searchFrom (q.data.map Atom.lit) text.data = _
  rw [searchFrom_literal]
  rfl

/-- On a metacharacter-free name the `find_one` predicate built from the
raw-interpolated pattern `^name$` is exactly the spec's case-insensitive
whole-string equality. -/
theorem nameSelector_literal (name : String) (h : literalPat name = true) (d : Doc) :
    nameSelector name d = specNameEq name d := by
  unfold nameSelector specNameEq
  cases d.item with
  | none => rfl
  | some nm =>
    show regexSearch ("^" ++ name ++ "$") nm =
      decide (nm.data.map Char.toLower = name.data.map Char.toLower)
    unfold regexSearch
    rw [parsePat_anchored name h]
    show matchFull (name.data.map Atom.lit) nm.data =
      decide (nm.data.map Char.toLower = name.data.map Char.toLower)
    rw [matchFull_literal]
    exact decide_eq_decide.mpr eq_comm

theorem find?_ext {α : Type} (p q : α → Bool) (l : List α) (h : ∀ x, p x = q x) :
    l.find? p = l.find? q := by
  induction l with
  | nil => rfl
  | cons a as ih =>
    simp only [List.find?]
    rw [h a, ih]

/-- On a metacharacter-free name, `place_order`'s lookup is the spec's
case-insensitive whole-string lookup. -/
theorem po_lookup_literal (name : String) (h : literalPat name = true) (s : State) :
    po_lookup name s = spec_lookup name s :=
  find?_ext _ _ s.menu (nameSelector_literal name h)

/-- On a metacharacter-free query the `$or` search criteria are exactly the
spec's case-insensitive substring test on name and tags. -/
theorem docMatchesQuery_literal (q : String) (h : literalPat q = true) (d : Doc) :
    docMatchesQuery q d = specDocMatches q d := by
  have hfun : (fun t => regexSearch q t) = (fun t => specSubstr q t) :=
    funext (fun t => regexSearch_literal q t h)
  unfold docMatchesQuery specDocMatches
  have h1 : (match d.item with
      | some nm => regexSearch q nm
      | none => false) = (match d.item with
      | some nm => specSubstr q nm
      | none => false) := by
    cases d.item with
    | none => rfl
    | some nm =>
      show regexSearch q nm = specSubstr q nm
      exact regexSearch_literal q nm h
  have h2 : (match d.tags with
      | some ts => ts.any (fun t => regexSearch q t)
      | none => false) = (match d.tags with
      | some ts => ts.any (fun t => specSubstr q t)
      | none => false) := by
    cases d.tags with
    | none => rfl
    | some ts =>
      show ts.any (fun t => regexSearch q t) = ts.any (fun t => specSubstr q t)
      rw [hfun]
  rw [h1, h2]

/-- A metacharacter-free pattern contains no parenthesis, so it is never
surely invalid. -/
theorem surelyInvalid_literal (q : String) (h : literalPat q = true) :
    surelyInvalid q = false := by
  have hparen : ¬ ('(' ∈ q.data) := by
    intro hmem
    have := (List.all_eq_true.mp h) '(' hmem
    simp [metachar] at this
  unfold surelyInvalid
  rw [decide_eq_false hparen]
  rfl

/-- Anchoring a metacharacter-free name adds no parenthesis either, so
`place_order`'s interpolated pattern is never surely invalid for such a
name. -/
theorem surelyInvalid_anchored_literal (name : String) (h : literalPat name = true) :
    surelyInvalid ("^" ++ name ++ "$") = false := by
  have hparen : ¬ ('(' ∈ ("^" ++ name ++ "$").data) := by
    rw [String.data_append, String.data_append]
    intro hmem
    rcases List.mem_append.mp hmem with hmem1 | hmem2
    · rcases List.mem_append.mp hmem1 with hcaret | hname
      · simp at hcaret
      · have := (List.all_eq_true.mp h) '(' hname
        simp [metachar] at this
    · simp at hmem2
  unfold surelyInvalid
  rw [decide_eq_false hparen]
  rfl

/-! ## Operational lemmas about `place_order`'s effect on the state -/

theorem find?_split {p : Doc → Bool} {l : List Doc} {d : Doc}
    (h : l.find? p = some d) :
    ∃ l1 l2, l = l1 ++ d :: l2 ∧ ∀ x ∈ l1, p x = false := by
  induction l with
  | nil => simp [List.find?] at h
  | cons a as ih =>
    by_cases hpa : p a = true
    · rw [List.find?_cons_of_pos _ hpa] at h
      obtain rfl : a = d := by injection h
      exact ⟨[], as, rfl, by simp⟩
    · have hpa' : ¬ p a := by simpa using hpa
      rw [List.find?_cons_of_neg _ hpa'] at h
      obtain ⟨l1, l2, hsplit, hl1⟩ := ih h
      refine ⟨a :: l1, l2, by rw [hsplit]; rfl, ?_⟩
      intro x hx
      rcases List.mem_cons.mp hx with rfl | hx'
      · simpa using hpa'
      · exact hl1 x hx'

theorem incStockById_split (i : Nat) (delta : Int) (l1 : List Doc) (d : Doc)
    (l2 : List Doc) (hd : d.id = i) (h : ∀ x ∈ l1, x.id ≠ i) :
    incStockById i delta (l1 ++ d :: l2) =
      l1 ++ { d with stock := some (d.stock.getD 0 + delta) } :: l2 := by
  induction l1 with
  | nil => simp [incStockById, hd]
  | cons a as ih =>
    have ha : a.id ≠ i := h a (List.mem_cons_self a as)
    simp only [List.cons_append, incStockById, if_neg ha, List.append_eq]
    rw [ih (fun x hx => h x (List.mem_cons_of_mem a hx))]

theorem incStockById_map_id (i : Nat) (delta : Int) (l : List Doc) :
    (incStockById i delta l).map Doc.id = l.map Doc.id := by
  induction l with
  | nil => rfl
  | cons d ds ih =>
    by_cases hd : d.id = i <;> simp [incStockById, hd, ih]

theorem mem_incStockById (i : Nat) (delta : Int) (l : List Doc) (x : Doc)
    (hx : x ∈ incStockById i delta l) :
    x ∈ l ∨ ∃ y ∈ l, y.id = i ∧ x = { y with stock := some (y.stock.getD 0 + delta) } := by
  induction l with
  | nil => simp [incStockById] at hx
  | cons d ds ih =>
    by_cases hd : d.id = i
    · rw [incStockById, if_pos hd] at hx
      rcases List.mem_cons.mp hx with rfl | hx'
      · exact Or.inr ⟨d, List.mem_cons_self d ds, hd, rfl⟩
      · exact Or.inl (List.mem_cons_of_mem d hx')
    · rw [incStockById, if_neg hd] at hx
      rcases List.mem_cons.mp hx with rfl | hx'
      · exact Or.inl (List.mem_cons_self x ds)
      · rcases ih hx' with h | ⟨y, hy, hyi, hxy⟩
        · exact Or.inl (List.mem_cons_of_mem d h)
        · exact Or.inr ⟨y, List.mem_cons_of_mem d hy, hyi, hxy⟩

theorem menu_after_commit (now : Nat) (d : Doc) (s : State) :
    (po_commit now d s).2.menu = incStockById d.id (-1) s.menu := by
  unfold po_commit
  cases d.item <;> [rfl; (cases d.price <;> rfl)]

theorem nodup_prefix_ids {l1 l2 : List Doc} {d : Doc}
    (h : ((l1 ++ d :: l2).map Doc.id).Nodup) : ∀ x ∈ l1, x.id ≠ d.id := by
  intro x hx hEq
  rw [List.map_append] at h
  rcases List.nodup_append.mp h with ⟨-, -, hdisj⟩
  exact hdisj (List.mem_map_of_mem Doc.id hx) (by simp [hEq])

/-- Full effect of a successful `place_order`: with the menu split around the
document the lookup found, the only changes are that document's stock going
down by exactly 1 and one order (snapshot of the document's name and price,
status `kitchen_preparing`, timestamp `now`) appended at the tail of the
ledger. -/
theorem place_order_success_split
    (now : Nat) (name : String) (s : State) (d : Doc) (st : Int) (nm : String) (pr : Int)
    (hnd : (s.menu.map Doc.id).Nodup)
    (hf : po_lookup name s = some d)
    (hst : d.stock = some st) (hpos : 0 < st)
    (hnm : d.item = some nm) (hpr : d.price = some pr) :
    ∃ l1 l2, s.menu = l1 ++ d :: l2 ∧
      (place_order now name s).2.menu = l1 ++ { d with stock := some (st - 1) } :: l2 ∧
      (place_order now name s).2.orders =
        s.orders ++ [⟨nm, pr, "kitchen_preparing", now⟩] ∧
      (place_order now name s).1 =
        Except.ok ("SUCCESS: Ordered " ++ nm ++ ". It will arrive in 30 mins.") := by
  obtain ⟨l1, l2, hsplit, -⟩ := find?_split hf
  refine ⟨l1, l2, hsplit, ?_⟩
  have hpo : place_order now name s = po_commit now d s := by
    simp only [place_order, hf, hst]
    rw [if_neg (by omega : ¬ st ≤ 0)]
  have hinc : incStockById d.id (-1) s.menu = l1 ++ { d with stock := some (st - 1) } :: l2 := by
    rw [hsplit]
    rw [incStockById_split d.id (-1) l1 d l2 rfl (nodup_prefix_ids (hsplit ▸ hnd))]
    rw [hst]
    simp only [Option.getD_some, sub_eq_add_neg]
  have hcommit : po_commit now d s =
      (Except.ok ("SUCCESS: Ordered " ++ nm ++ ". It will arrive in 30 mins."),
       ⟨incStockById d.id (-1) s.menu, s.orders ++ [⟨nm, pr, "kitchen_preparing", now⟩]⟩) := by
    unfold po_commit
    rw [hnm, hpr]
  rw [hpo, hcommit, hinc]
  exact ⟨rfl, rfl, rfl⟩

/-! ## Invariant machinery -/

/-- MongoDB's `_id` uniqueness across the `menu` collection (guaranteed by
the store; the model states it explicitly). -/
def idsNodup (s : State) : Prop := (s.menu.map Doc.id).Nodup

/-- Every menu document's stock count is non-negative (a missing `stock`
field reads as `0`, matching both `doc.get('stock', 0)` and `$inc` on a
missing field). -/
def stocksNonneg (s : State) : Prop := ∀ d ∈ s.menu, 0 ≤ d.stock.getD 0

theorem place_order_preserves_inv (now : Nat) (name : String) (s : State)
    (hid : idsNodup s) (hnn : stocksNonneg s) :
    idsNodup (place_order now name s).2 ∧ stocksNonneg (place_order now name s).2 := by
  cases hf : po_lookup name s with
  | none =>
    simp only [place_order, hf]
    exact ⟨hid, hnn⟩
  | some d =>
    cases hst : d.stock with
    | none =>
      simp only [place_order, hf, hst]
      exact ⟨hid, hnn⟩
    | some st =>
      by_cases hle : st ≤ 0
      · cases hnm : d.item with
        | none =>
          simp only [place_order, hf, hst, if_pos hle, hnm]
          exact ⟨hid, hnn⟩
        | some nm =>
          simp only [place_order, hf, hst, if_pos hle, hnm]
          exact ⟨hid, hnn⟩
      · have hmem : d ∈ s.menu := List.mem_of_find?_eq_some hf
        have h2 : (place_order now name s).2.menu = incStockById d.id (-1) s.menu := by
          simp only [place_order, hf, hst, if_neg hle]
          exact menu_after_commit now d s
        constructor
        · unfold idsNodup
          rw [h2, incStockById_map_id]
          exact hid
        · intro x hx
          rw [h2] at hx
          rcases mem_incStockById _ _ _ _ hx with hmem' | ⟨y, hy, hyi, hxy⟩
          · exact hnn x hmem'
          · have hyd : y = d := List.inj_on_of_nodup_map hid hy hmem hyi
            subst hyd
            rw [hxy]
            simp only [hst, Option.getD_some]
            omega

/-- The states reachable from `s` by a finite sequence of Inventory Service
operations: `check_menu` calls (which only read — the embedded `check_menu`
returns no state) and `place_order` calls. -/
inductive Reach : State → State → Prop
  | refl (s : State) : Reach s s
  | search (q : String) {s t : State} : Reach s t → Reach s t
  | order (now : Nat) (name : String) {s t : State} :
      Reach s t → Reach s (place_order now name t).2

theorem reach_inv {s t : State} (h : Reach s t)
    (hid : idsNodup s) (hnn : stocksNonneg s) : idsNodup t ∧ stocksNonneg t := by
  induction h with
  | refl => exact ⟨hid, hnn⟩
  | search q _ ih => exact ih hid hnn
  | order now name _ ih =>
    exact place_order_preserves_inv now name _ (ih hid hnn).1 (ih hid hnn).2

/-! ## Concrete states used by scenarios and counterexamples -/

/-- The first seeded document. -/
def clubDoc : Doc :=
  ⟨0, some "Club Sandwich", some 15, some 10, some ["contains_gluten", "meat"]⟩

/-- The third seeded document (the out-of-stock one). -/
def caesarDoc : Doc :=
  ⟨2, some "Caesar Salad", some 12, some 0, some ["vegetarian", "contains_dairy"]⟩

/-- A one-item catalog with a single unit of stock, for the race schedule. -/
def teaDoc : Doc := ⟨0, some "Tea", some 5, some 1, some []⟩

/-- The state holding only `teaDoc`, with an empty ledger. -/
def teaState : State := ⟨[teaDoc], []⟩

/-- The spec's `placeOrder("fruit platter")` scenario catalog. -/
def fpState : State :=
  ⟨[⟨0, some "Fruit Platter", some 10, some 20, some ["vegan", "gluten_free"]⟩], []⟩

/-- A catalog whose second item is literally named `"A."` (out of stock)
while the first, in-stock item `"Ax"` happens to match the regex `^A.$`. -/
def c3State : State :=
  ⟨[⟨0, some "Ax", some 3, some 3, some []⟩,
    ⟨1, some "A.", some 4, some 0, some []⟩], []⟩

/-- A catalog whose single document lacks the `stock` key. -/
def ghostState : State := ⟨[⟨0, some "Ghost", some 5, none, none⟩], []⟩

/-- The string form `"SUCCESS: Ordered …"` split at the spec's prefix
contract `"SUCCESS:"`. -/
theorem success_prefix_form (nm : String) :
    "SUCCESS: Ordered " ++ nm ++ ". It will arrive in 30 mins." =
      "SUCCESS:" ++ (" Ordered " ++ nm ++ ". It will arrive in 30 mins.") := by
  apply String.ext
  simp [String.data_append, List.append_assoc]

/-! ## Claims -/

/-- C1: the claim states that the stock-check and the stock decrement form a
single atomic operation, so concurrent orders can never oversell.  The code
contradicts this: `place_order` is `find_one` (read) + check + an
*unconditional* `$inc` (write), i.e. `po_lookup`/check followed by
`po_commit`.  Under the interleaving in which two concurrent calls for
`"Tea"` (stock 1) both perform the read and the check against the initial
state before either writes, both calls take the success path: both commits
return `SUCCESS:`, the final stock is `-1` (not `0`), and two orders (not
one) are appended.  This theorem evaluates the code's two phases on exactly
that schedule. -/
theorem place_order_race_not_atomic :
    po_lookup "Tea" teaState = some teaDoc ∧
    teaDoc.stock = some 1 ∧ ¬ (1 : Int) ≤ 0 ∧
    (po_commit 0 teaDoc teaState).1 =
      Except.ok ("SUCCESS: Ordered Tea. It will arrive in 30 mins.") ∧
    (po_commit 1 teaDoc (po_commit 0 teaDoc teaState).2).1 =
      Except.ok ("SUCCESS: Ordered Tea. It will arrive in 30 mins.") ∧
    (po_commit 1 teaDoc (po_commit 0 teaDoc teaState).2).2.menu =
      [⟨0, some "Tea", some 5, some (-1), some []⟩] ∧
    (po_commit 1 teaDoc (po_commit 0 teaDoc teaState).2).2.orders.length = 2 := by
  decide

/-- C2: when `place_order`'s lookup finds a document with positive stock (and
present `item`/`price` fields; `_id`s unique as MongoDB guarantees), the call
decrements exactly that document's stock by exactly 1, leaves every other
document untouched, appends exactly one order — a snapshot of the found
document's name and price, status `"kitchen_preparing"` (the source's
encoding of the spec's `preparing`), timestamp = the call-time `now` — and
returns a text result beginning with `"SUCCESS:"`. -/
theorem place_order_success_contract
    (now : Nat) (name : String) (s : State) (d : Doc) (st : Int) (nm : String) (pr : Int)
    (hnd : (s.menu.map Doc.id).Nodup)
    (hf : po_lookup name s = some d)
    (hst : d.stock = some st) (hpos : 0 < st)
    (hnm : d.item = some nm) (hpr : d.price = some pr) :
    ∃ l1 l2,
      s.menu = l1 ++ d :: l2 ∧
      (place_order now name s).2.menu = l1 ++ { d with stock := some (st - 1) } :: l2 ∧
      (place_order now name s).2.orders = s.orders ++
        [{ item := nm, price := pr, status := "kitchen_preparing", timestamp := now }] ∧
      ∃ rest, (place_order now name s).1 = Except.ok ("SUCCESS:" ++ rest) := by
  obtain ⟨l1, l2, h1, h2, h3, h4⟩ :=
    place_order_success_split now name s d st nm pr hnd hf hst hpos hnm hpr
  refine ⟨l1, l2, h1, h2, h3, " Ordered " ++ nm ++ ". It will arrive in 30 mins.", ?_⟩
  rw [h4, success_prefix_form]

/-- Witness for C2 at the seeded catalog and `"Club Sandwich"`. -/
theorem place_order_success_contract_witness :
    ∃ l1 l2,
      seededState.menu = l1 ++ clubDoc :: l2 ∧
      (place_order 5 "Club Sandwich" seededState).2.menu =
        l1 ++ { clubDoc with stock := some (10 - 1) } :: l2 ∧
      (place_order 5 "Club Sandwich" seededState).2.orders = seededState.orders ++
        [{ item := "Club Sandwich", price := 15, status := "kitchen_preparing",
           timestamp := 5 }] ∧
      ∃ rest, (place_order 5 "Club Sandwich" seededState).1 =
        Except.ok ("SUCCESS:" ++ rest) :=
  place_order_success_contract 5 "Club Sandwich" seededState clubDoc 10 "Club Sandwich" 15
    (by decide) (by decide) (by decide) (by decide) (by decide) (by decide)

/-- C3 counterexample: the claim quantifies over every `itemName` whose
*case-insensitive whole-string match* finds an out-of-stock item.  In
`c3State` that match finds the item literally named `"A."` with stock 0, so
the claim demands an OutOfStock failure with no mutation; but the code's
lookup treats the name as the regex `^A.$`, which matches the in-stock item
`"Ax"` first, so the order succeeds and the state is mutated. -/
theorem place_order_out_of_stock_cex :
    spec_lookup "A." c3State = some ⟨1, some "A.", some 4, some 0, some []⟩ ∧
    (place_order 0 "A." c3State).1 =
      Except.ok ("SUCCESS: Ordered Ax. It will arrive in 30 mins.") ∧
    (place_order 0 "A." c3State).2 ≠ c3State := by
  decide

/-- C3 (amended): for every *metacharacter-free* itemName whose
case-insensitive whole-string match finds an item with stock ≤ 0, the call
returns the out-of-stock message and mutates neither the menu nor the
ledger (the returned state is the input state). -/
theorem place_order_out_of_stock
    (now : Nat) (name : String) (s : State) (d : Doc) (st : Int) (nm : String)
    (hlit : literalPat name = true)
    (hf : spec_lookup name s = some d)
    (hst : d.stock = some st) (hle : st ≤ 0) (hnm : d.item = some nm) :
    place_order now name s =
      (Except.ok ("Sorry, " ++ nm ++ " is currently out of stock."), s) := by
  have hf' : po_lookup name s = some d := by
    rw [po_lookup_literal name hlit]
    exact hf
  simp only [place_order, hf', hst, if_pos hle, hnm]

/-- Witness for C3 (amended) at the seeded catalog's out-of-stock item. -/
theorem place_order_out_of_stock_witness :
    place_order 0 "caesar salad" seededState =
      (Except.ok ("Sorry, " ++ "Caesar Salad" ++ " is currently out of stock."),
       seededState) :=
  place_order_out_of_stock 0 "caesar salad" seededState caesarDoc 0 "Caesar Salad"
    (by decide) (by decide) (by decide) (by decide) (by decide)

/-- C4 counterexample: `"club sandwic."` is not (case-insensitively) equal to
any catalog name, so the claim demands an ItemNotFound failure with no
mutation; but the code's regex `^club sandwic.$` matches `"Club Sandwich"`,
so the order succeeds and the state is mutated. -/
theorem place_order_not_found_cex :
    spec_lookup "club sandwic." seededState = none ∧
    (place_order 0 "club sandwic." seededState).1 =
      Except.ok ("SUCCESS: Ordered Club Sandwich. It will arrive in 30 mins.") ∧
    (place_order 0 "club sandwic." seededState).2 ≠ seededState := by
  decide

/-- C4 (amended): for every *metacharacter-free* itemName that matches no
catalog item's name case-insensitively, the call returns the
check-the-menu-first error message and mutates neither the menu nor the
ledger. -/
theorem place_order_not_found
    (now : Nat) (name : String) (s : State)
    (hlit : literalPat name = true)
    (hn : spec_lookup name s = none) :
    place_order now name s =
      (Except.ok ("Error: '" ++ name ++ "' is not on the menu. Please check the menu first."),
       s) := by
  have hn' : po_lookup name s = none := by
    rw [po_lookup_literal name hlit]
    exact hn
  simp only [place_order, hn']

/-- Witness for C4 (amended) with a name absent from the seeded catalog. -/
theorem place_order_not_found_witness :
    place_order 0 "Sushi" seededState =
      (Except.ok ("Error: '" ++ "Sushi" ++ "' is not on the menu. Please check the menu first."),
       seededState) :=
  place_order_not_found 0 "Sushi" seededState (by decide) (by decide)

/-- C5 counterexample: the claim says the lookup is an exact case-insensitive
whole-string match *for every itemName including names containing special
characters*.  `"c.ub sandwich"` equals no catalog name case-insensitively,
yet the lookup finds `"Club Sandwich"` (the unescaped `.` matches `l`) and
the order succeeds. -/
theorem place_order_lookup_cex :
    spec_lookup "c.ub sandwich" seededState = none ∧
    po_lookup "c.ub sandwich" seededState = some clubDoc ∧
    (place_order 0 "c.ub sandwich" seededState).1 =
      Except.ok ("SUCCESS: Ordered Club Sandwich. It will arrive in 30 mins.") := by
  decide

/-- C5 (amended): the lookup is the unescaped regex `^itemName$` with the
case-insensitive option; for every *metacharacter-free* itemName this
coincides with the exact case-insensitive whole-string match; and the spec's
scenario holds: on catalog `{"Fruit Platter", price 10, stock 20}`,
`placeOrder("fruit platter")` succeeds, decrements the stock to 19, and
appends one order with price 10. -/
theorem place_order_lookup_ci (name : String) (s : State)
    (hlit : literalPat name = true) :
    po_lookup name s = spec_lookup name s ∧
    place_order 7 "fruit platter" fpState =
      (Except.ok ("SUCCESS: Ordered Fruit Platter. It will arrive in 30 mins."),
       ⟨[⟨0, some "Fruit Platter", some 10, some 19, some ["vegan", "gluten_free"]⟩],
        [⟨"Fruit Platter", 10, "kitchen_preparing", 7⟩]⟩) :=
  ⟨po_lookup_literal name hlit s, by decide⟩

/-- Witness for C5 (amended) at the scenario's own inputs. -/
theorem place_order_lookup_ci_witness :
    po_lookup "fruit platter" fpState = spec_lookup "fruit platter" fpState ∧
    place_order 7 "fruit platter" fpState =
      (Except.ok ("SUCCESS: Ordered Fruit Platter. It will arrive in 30 mins."),
       ⟨[⟨0, some "Fruit Platter", some 10, some 19, some ["vegan", "gluten_free"]⟩],
        [⟨"Fruit Platter", 10, "kitchen_preparing", 7⟩]⟩) :=
  place_order_lookup_ci "fruit platter" fpState (by decide)

/-- C6 counterexample: the claim says `search` returns exactly the items
whose name or tags contain the query as a case-insensitive *substring*, for
every query including regex metacharacters.  `"v.gan"` is a substring of no
seeded name or tag (the spec-side filter is empty, so exact substring
semantics would return the no-match sentinel), yet the code's unanchored
regex matches `vegan` and returns two items. -/
theorem check_menu_substring_cex :
    seededState.menu.filter (specDocMatches "v.gan") = [] ∧
    check_menu "v.gan" seededState =
      "- Vegan Buddha Bowl: Available ($18) (Tags: vegan, gluten_free, nuts)" ++ "\n" ++
      "- Fruit Platter: Available ($10) (Tags: vegan, gluten_free)" := by
  decide

/-- C6 (amended): for every *metacharacter-free* query that is neither empty
nor the token `"menu"` (case-insensitively), `check_menu` returns exactly the
items whose name or whose tags contain the query as a case-insensitive
substring, rendered in catalog order. -/
theorem check_menu_substring_semantics (q : String) (s : State)
    (hlit : literalPat q = true)
    (hne : q ≠ "") (hmenu : lowerStr q ≠ "menu") :
    check_menu q s = renderResponse (s.menu.filter (specDocMatches q)) := by
  unfold check_menu
  rw [if_neg (not_or.mpr ⟨hne, hmenu⟩)]
  congr 1
  exact List.filter_congr (fun x _ => docMatchesQuery_literal q hlit x)

/-- Witness for C6 (amended) at the spec's `search("vegan")` scenario. -/
theorem check_menu_substring_semantics_witness :
    check_menu "vegan" seededState =
      renderResponse (seededState.menu.filter (specDocMatches "vegan")) :=
  check_menu_substring_semantics "vegan" seededState (by decide) (by decide) (by decide)

/-- C7: for every catalog state, a query that is empty or lowercases to the
token `"menu"` bypasses the filter entirely: the result renders *every* menu
document, in catalog (hence stable) order.  The embedded `check_menu`
returns no state — the source only reads — so the call is read-only by
construction. -/
theorem check_menu_generic_all (q : String) (s : State)
    (h : q = "" ∨ lowerStr q = "menu") :
    check_menu q s = renderResponse s.menu := by
  unfold check_menu
  rw [if_pos h]

/-- Witness for C7 with the case-mismatched token `"MENU"`. -/
theorem check_menu_generic_all_witness :
    check_menu "MENU" seededState = renderResponse seededState.menu :=
  check_menu_generic_all "MENU" seededState (by decide)

/-- C8 counterexample: the claim quantifies over *every* query and says the
no-match outcome is a sentinel text, "not an error".  The query `"("` matches
no item under the claim's own substring semantics (the spec-side filter is
empty), yet the tool call raises `OperationFailure` — the unescaped query is
an invalid regex — instead of returning the sentinel. -/
theorem search_render_contract_cex :
    seededState.menu.filter (specDocMatches "(") = [] ∧
    check_menu_run "(" seededState = Except.error "OperationFailure: invalid regex" ∧
    check_menu_run "(" seededState ≠ Except.ok noMatchMsg := by
  decide

/-- C8 (amended): each rendered line shows `"Available ($price)"` exactly
when the document's stock reads positive, and `"OUT OF STOCK"` when its
stock is 0 — `renderDoc` does not depend on the query, so this holds
regardless of the query; and for every *metacharacter-free* query under
which no document passes the filter, the tool call returns the single
no-match sentinel as an ordinary `Except.ok` text result, not an error (for
queries with metacharacters this fails: an invalid pattern such as `"("`
raises, see the counterexample). -/
theorem search_render_contract :
    (∀ d : Doc, ∀ pr : Int, d.price = some pr → 0 < d.stock.getD 0 →
      renderDoc d = "- " ++ d.item.getD "Unknown" ++ ": " ++
        ("Available ($" ++ toString pr ++ ")") ++ " (Tags: " ++
        String.intercalate ", " (d.tags.getD []) ++ ")") ∧
    (∀ d : Doc, d.stock = some 0 →
      renderDoc d = "- " ++ d.item.getD "Unknown" ++ ": " ++ "OUT OF STOCK" ++
        " (Tags: " ++ String.intercalate ", " (d.tags.getD []) ++ ")") ∧
    (∀ q : String, ∀ s : State, literalPat q = true → q ≠ "" → lowerStr q ≠ "menu" →
      s.menu.filter (docMatchesQuery q) = [] →
      check_menu_run q s = Except.ok noMatchMsg) := by
  refine ⟨?_, ?_, ?_⟩
  · intro d pr hpr hpos
    simp only [renderDoc, hpr, Option.getD_some, if_pos hpos]
  · intro d hst
    simp only [renderDoc, hst, Option.getD_some]
    rfl
  · intro q s hlit hne hmenu hfilter
    unfold check_menu_run
    rw [if_neg (not_or.mpr ⟨hne, hmenu⟩),
        if_neg (by rw [surelyInvalid_literal q hlit]; exact Bool.false_ne_true)]
    unfold check_menu
    rw [if_neg (not_or.mpr ⟨hne, hmenu⟩), hfilter]
    rfl

/-- Witness for C8 (amended): an in-stock line, the out-of-stock line, and
the non-error sentinel on a metacharacter-free query matching nothing. -/
theorem search_render_contract_witness :
    renderDoc clubDoc = "- " ++ clubDoc.item.getD "Unknown" ++ ": " ++
      ("Available ($" ++ toString (15 : Int) ++ ")") ++ " (Tags: " ++
      String.intercalate ", " (clubDoc.tags.getD []) ++ ")" ∧
    renderDoc caesarDoc = "- " ++ caesarDoc.item.getD "Unknown" ++ ": " ++ "OUT OF STOCK" ++
      " (Tags: " ++ String.intercalate ", " (caesarDoc.tags.getD []) ++ ")" ∧
    check_menu_run "sushi" seededState = Except.ok noMatchMsg :=
  ⟨search_render_contract.1 clubDoc 15 (by decide) (by decide),
   search_render_contract.2.1 caesarDoc (by decide),
   search_render_contract.2.2 "sushi" seededState (by decide) (by decide) (by decide)
     (by decide)⟩

/-- C9: from any state with unique `_id`s and all stock counts non-negative,
every state reachable by a finite sequence of `check_menu` and `place_order`
calls still has all stock counts non-negative: the only stock mutation in
the code is `place_order`'s decrement, which is guarded by the `stock <= 0`
check (sequential executions; for interleaved executions see C1). -/
theorem stock_invariant_reachable {s t : State} (h : Reach s t)
    (hid : idsNodup s) (hnn : stocksNonneg s) : stocksNonneg t :=
  (reach_inv h hid hnn).2

/-- Witness for C9: two orders and a search from the seeded state. -/
theorem stock_invariant_reachable_witness :
    stocksNonneg
      (place_order 1 "caesar salad"
        (place_order 0 "Club Sandwich" seededState).2).2 :=
  stock_invariant_reachable
    (Reach.order 1 "caesar salad"
      (Reach.search "vegan" (Reach.order 0 "Club Sandwich" (Reach.refl seededState))))
    (by unfold idsNodup; decide) (by unfold stocksNonneg; decide)

/-- C10 counterexample: the claim says the tools never raise past the
public boundary for every input and catalog state.  Two raises escape:
on a catalog whose document lacks the `stock` key, `place_order("Ghost")`
evaluates `item['stock']` with no default and a `KeyError` escapes; and for
the itemName `"("` the interpolated pattern `^($` is an invalid regex, so
`find_one` raises `OperationFailure` even over the fully keyed seeded
catalog (before any write — the state is untouched), and `check_menu("(")`
raises the same way. -/
theorem tool_raises_cex :
    (place_order 0 "Ghost" ghostState).1 = Except.error "KeyError: stock" ∧
    (place_order_run 0 "(" seededState).1 =
      Except.error "OperationFailure: invalid regex" ∧
    (place_order_run 0 "(" seededState).2 = seededState ∧
    check_menu_run "(" ghostState = Except.error "OperationFailure: invalid regex" := by
  decide

/-- C10 (amended): `check_menu` renders missing fields with the documented
defaults — a document with no `stock` key (or no key at all beyond `_id`)
renders as `OUT OF STOCK` with name `Unknown`, and a missing `price` renders
as `$0`.  For every *metacharacter-free* query the `check_menu` call returns
its text result without raising; for every *metacharacter-free* itemName
over a catalog whose documents all carry their `item`, `price` and `stock`
keys, the `place_order` call returns a descriptive text result without
raising.  Outside those restrictions exceptions do escape the boundary: an
invalid interpolated regex raises `OperationFailure` from either tool, and
`place_order` reads the found document's `stock`, `item` and `price` keys
without defaults, so a missing key raises `KeyError` (see the
counterexample). -/
theorem tool_error_propagation :
    (∀ i : Nat, renderDoc ⟨i, none, none, none, none⟩ =
      "- Unknown: OUT OF STOCK (Tags: )") ∧
    (∀ i : Nat, renderDoc ⟨i, none, none, some 1, none⟩ =
      "- Unknown: Available ($0) (Tags: )") ∧
    (∀ q : String, ∀ s : State, literalPat q = true →
      check_menu_run q s = Except.ok (check_menu q s)) ∧
    (∀ now : Nat, ∀ name : String, ∀ s : State, literalPat name = true →
      (∀ d ∈ s.menu, d.item ≠ none ∧ d.price ≠ none ∧ d.stock ≠ none) →
      ∃ msg, (place_order_run now name s).1 = Except.ok msg) := by
  refine ⟨fun i => rfl, fun i => rfl, ?_, ?_⟩
  · intro q s hlit
    unfold check_menu_run
    by_cases hgen : q = "" ∨ lowerStr q = "menu"
    · rw [if_pos hgen]
    · rw [if_neg hgen,
          if_neg (by rw [surelyInvalid_literal q hlit]; exact Bool.false_ne_true)]
  · intro now name s hlit hwf
    have hrun : place_order_run now name s = place_order now name s := by
      unfold place_order_run
      rw [if_neg (by rw [surelyInvalid_anchored_literal name hlit]; exact Bool.false_ne_true)]
    rw [hrun]
    cases hf : po_lookup name s with
    | none =>
      simp only [place_order, hf]
      exact ⟨_, rfl⟩
    | some d =>
      have hd := hwf d (List.mem_of_find?_eq_some hf)
      obtain ⟨nm, hnm⟩ := Option.ne_none_iff_exists'.mp hd.1
      obtain ⟨pr, hpr⟩ := Option.ne_none_iff_exists'.mp hd.2.1
      obtain ⟨st, hst⟩ := Option.ne_none_iff_exists'.mp hd.2.2
      by_cases hle : st ≤ 0
      · simp only [place_order, hf, hst, if_pos hle, hnm]
        exact ⟨_, rfl⟩
      · simp only [place_order, hf, hst, if_neg hle, po_commit, hnm, hpr]
        exact ⟨_, rfl⟩

/-- Witness for C10 (amended), instantiating the defaults at `_id = 0`, the
no-raise `check_menu` clause at `"vegan"`, and the no-raise `place_order`
clause at the (fully keyed) seeded catalog. -/
theorem tool_error_propagation_witness :
    renderDoc ⟨0, none, none, none, none⟩ = "- Unknown: OUT OF STOCK (Tags: )" ∧
    renderDoc ⟨0, none, none, some 1, none⟩ = "- Unknown: Available ($0) (Tags: )" ∧
    check_menu_run "vegan" seededState = Except.ok (check_menu "vegan" seededState) ∧
    ∃ msg, (place_order_run 0 "Caesar Salad" seededState).1 = Except.ok msg :=
  ⟨tool_error_propagation.1 0, tool_error_propagation.2.1 0,
   tool_error_propagation.2.2.1 "vegan" seededState (by decide),
   tool_error_propagation.2.2.2 0 "Caesar Salad" seededState (by decide) (by decide)⟩

end HotelAgent
